import Mathlib

/-!
Verification of the earworm difficulty/simplification core
(`src/earworm/difficulty/simplify.py` and `src/earworm/difficulty/analyse.py`)
against its natural-language specification.

The embedding models the mido message stream shallowly:
* a MIDI message is one of note_on / note_off / set_tempo / end_of_track /
  any other (meta) message, each carrying its delta `time` in ticks;
* a MidiFile is `ticks_per_beat` plus a list of tracks (lists of messages);
* Python ints are `Nat`/`Int`; Python floats that the code only ever fills
  with exactly-representable values (tick/grid quotients, tempo scaling,
  second conversions) are modelled as `Rat`;
* functions that can raise (`ZeroDivisionError` from a zero grid / window)
  return `Option`.

Times, pitches and velocities are `Nat`: the serialized format stores
delta-times as unsigned varints and the data model of the spec fixes
onset, pitch and velocity as non-negative integers.
-/

namespace Earworm

/-- A mido message, restricted to the fields the difficulty core reads:
type, note, velocity, delta time, tempo. Other message kinds (program
change, control change, remaining metas …) are collapsed into `other`
since the code only copies them through. -/
inductive Msg where
  | noteOn (note velocity time : Nat)
  | noteOff (note velocity time : Nat)
  | setTempo (tempo time : Nat)
  | endOfTrack (time : Nat)
  | other (time : Nat)
  deriving DecidableEq, Repr

/-- A mido MidiFile: resolution plus tracks. -/
structure MidiFile where
  ticks_per_beat : Nat
  tracks : List (List Msg)
  deriving DecidableEq, Repr

/-- `msg.time` — the delta time of any message. -/
def Msg.time : Msg → Nat
  | .noteOn _ _ t => t
  | .noteOff _ _ t => t
  | .setTempo _ t => t
  | .endOfTrack t => t
  | .other t => t

/-- `msg.note` for note messages (0 otherwise; only read on note messages). -/
def Msg.note : Msg → Nat
  | .noteOn n _ _ => n
  | .noteOff n _ _ => n
  | _ => 0

/-- `msg.velocity` for note messages (0 otherwise; only read on note messages). -/
def Msg.velocity : Msg → Nat
  | .noteOn _ v _ => v
  | .noteOff _ v _ => v
  | _ => 0

/-- `msg.type in ("note_on", "note_off")`. -/
def Msg.isNote : Msg → Bool
  | .noteOn _ _ _ => true
  | .noteOff _ _ _ => true
  | _ => false

/-- `msg.type == "note_on" and msg.velocity > 0` — a real note start. -/
def Msg.isPosNoteOn : Msg → Bool
  | .noteOn _ v _ => 0 < v
  | _ => false

/-- `msg.type == "note_off" or (msg.type == "note_on" and msg.velocity == 0)`
— a note stop. -/
def Msg.isStop : Msg → Bool
  | .noteOff _ _ _ => true
  | .noteOn _ v _ => v = 0
  | _ => false

/-- `msg.copy(time=0)`. -/
def Msg.withTime0 : Msg → Msg
  | .noteOn n v _ => .noteOn n v 0
  | .noteOff n v _ => .noteOff n v 0
  | .setTempo tp _ => .setTempo tp 0
  | .endOfTrack _ => .endOfTrack 0
  | .other _ => .other 0

/-! ## Quantiser and rounding

Python's `round` rounds halves to even.  All `round` call sites of the
code divide machine ints whose true quotients are exactly representable
as doubles at every half-integer boundary, so the float division is
modelled as exact rational division. -/

/-- Python's `round(q)` on a rational value: nearest integer, halves to
even. -/
def roundHalfEven (q : Rat) : Int :=
  let f : Int := ⌊q⌋
  let r : Rat := q - f
  if r < 1/2 then f
  else if 1/2 < r then f + 1
  else if f % 2 = 0 then f else f + 1

/-- `_quantise_tick(tick, grid) = round(tick / grid) * grid`
(simplify.py, lines 43–45).  The Python version raises
`ZeroDivisionError` on `grid = 0`; total call sites guard via
`quantiseTickChecked` below. -/
def _quantise_tick (tick grid : Int) : Int :=
  roundHalfEven ((tick : Rat) / (grid : Rat)) * grid

/-- `_quantise_tick` as the code actually behaves: `none` models the
`ZeroDivisionError` raised when `grid = 0`. -/
def quantiseTickChecked (tick grid : Int) : Option Int :=
  if grid = 0 then none else some (_quantise_tick tick grid)

/-! ## Stable sorting and dict key order

Python `list.sort` / `sorted` are stable.  `sortStable` is a stable
insertion sort: each element is inserted after every already-placed
element that compares `le` to it, so elements with equal keys keep
their original relative order — extensionally equal to Python's sort
for any total preorder `le`. -/

/-- Insert `x` after every prefix element `y` with `le y x`. -/
def insertLe {α : Type} (le : α → α → Bool) (x : α) : List α → List α
  | [] => [x]
  | y :: ys => if le y x then y :: insertLe le x ys else x :: y :: ys

/-- Stable sort by `le` (models Python's stable `sorted`). -/
def sortStable {α : Type} (le : α → α → Bool) (l : List α) : List α :=
  l.foldl (fun acc x => insertLe le x acc) []

/-- Keys of a Python dict filled by `setdefault` over `l`: each distinct
value once, in first-encounter order. -/
def dictKeys (l : List Nat) : List Nat :=
  l.foldl (fun ks k => if k ∈ ks then ks else ks ++ [k]) []

/-! ## Absolute times, merged stream, `MidiFile.length` -/

/-- Tag every message of a track with its absolute time
(cumulative sum of delta times), keeping track order. -/
def toAbsMsgs (track : List Msg) : List (Nat × Msg) :=
  (track.foldl (fun (st : Nat × List (Nat × Msg)) m =>
      (st.1 + m.time, st.2 ++ [(st.1 + m.time, m)])) (0, [])).2

/-- mido's `merge_tracks`: all messages of all tracks, stably sorted by
absolute time (messages with equal absolute time keep track order).
Intermediate `end_of_track` bookkeeping is omitted: it never moves a
message's absolute time nor a tempo change, so playback length and
replay order of note events are unaffected. -/
def mergedAbs (tracks : List (List Msg)) : List (Nat × Msg) :=
  sortStable (fun a b => decide (a.1 ≤ b.1)) ((tracks.map toAbsMsgs).flatten)

/-- The merged playback stream of a file, in timeline order. -/
def mergedMsgs (mid : MidiFile) : List Msg :=
  (mergedAbs mid.tracks).map (·.2)

/-- mido's default tempo: 500000 µs per beat (120 BPM). -/
def DEFAULT_TEMPO : Nat := 500000

/-- Seconds elapsed over the merged stream: each segment of `delta`
ticks contributes `delta * tempo / (tpb * 10^6)` seconds with the tempo
in force at its start; `set_tempo` takes effect after its own delta. -/
def lengthLoop (tpb : Nat) : Nat → Nat → List (Nat × Msg) → Rat
  | _, _, [] => 0
  | prev, tempo, (t, m) :: rest =>
    ((t - prev : Nat) : Rat) * (tempo : Rat) / ((tpb : Rat) * 1000000) +
      lengthLoop tpb t (match m with | .setTempo tp _ => tp | _ => tempo) rest

/-- `mid.length` in seconds (exact rational; faithful for
`ticks_per_beat > 0`, the spec's data-model invariant). -/
def midiLength (mid : MidiFile) : Rat :=
  lengthLoop mid.ticks_per_beat 0 DEFAULT_TEMPO (mergedAbs mid.tracks)

/-! ## Replay of an event stream

The replay mirrors the repository's own tests: walk the messages in
order keeping the set of currently sounding pitches (a Python `set`);
a positive-velocity `note_on` adds its pitch, a `note_off` or
zero-velocity `note_on` removes it. -/

/-- One replay step on the active-pitch set. -/
def replayStep (active : Finset Nat) (m : Msg) : Finset Nat :=
  match m with
  | .noteOn n v _ => if 0 < v then insert n active else active.erase n
  | .noteOff n _ _ => active.erase n
  | _ => active

/-- Replay fold state: active set and the running maximum of its size. -/
def replayFold (st : Finset Nat × Nat) (m : Msg) : Finset Nat × Nat :=
  let a := replayStep st.1 m
  (a, max st.2 a.card)

/-- Largest number of simultaneously active notes while replaying
`msgs` in order. -/
def maxSimultaneous (msgs : List Msg) : Nat :=
  (msgs.foldl replayFold (∅, 0)).2

/-- The set of still-active notes after replaying all of `msgs`. -/
def finalActive (msgs : List Msg) : Finset Nat :=
  (msgs.foldl replayFold (∅, 0)).1

/-! ## Advanced simplification (simplify.py, lines 53–83)

The source walks each track accumulating `cumulative_time`, computes
`_quantise_tick(cumulative_time, grid)` for note messages (raising if
`grid = 0`, i.e. `ticks_per_beat < 4`) but never uses the result, and
appends `msg.copy(time=0)` for every message; `_recalculate_deltas` is
a `pass` placeholder. -/

/-- One track of `simplify_advanced`: `none` models the
`ZeroDivisionError` from `_quantise_tick` when `grid = 0` and the track
holds a note message. -/
def advTrackGo (grid : Nat) : Nat → List Msg → Option (List Msg)
  | _, [] => some []
  | ct, m :: rest =>
    let ct' := ct + m.time
    if m.isNote then
      match quantiseTickChecked (ct' : Int) (grid : Int) with
      | none => none
      | some _ => (advTrackGo grid ct' rest).map (m.withTime0 :: ·)
    else (advTrackGo grid ct' rest).map (m.withTime0 :: ·)

/-- `_recalculate_deltas(track, grid)` (simplify.py, lines 238–242): the
body is `pass` — a documented placeholder that leaves the track
unchanged. -/
def _recalculate_deltas (track : List Msg) (grid : Nat) : List Msg :=
  track

/-- The `for track in mid.tracks` loop of `simplify_advanced`: each
track is rewritten and `_recalculate_deltas` applied; an exception in
any track aborts the whole call. -/
def advTracks (grid : Nat) : List (List Msg) → Option (List (List Msg))
  | [] => some []
  | tr :: rest =>
    match (advTrackGo grid 0 tr).map (fun nt => _recalculate_deltas nt grid) with
    | none => none
    | some nt => (advTracks grid rest).map (nt :: ·)

/-- `simplify_advanced(mid)` (simplify.py, lines 53–83). -/
def simplify_advanced (mid : MidiFile) : Option MidiFile :=
  (advTracks (mid.ticks_per_beat / 4) mid.tracks).map
    (fun trs => { ticks_per_beat := mid.ticks_per_beat, tracks := trs })

/-! ## Intermediate simplification (simplify.py, lines 86–139)

Constants from the source: `max_polyphony = 4`, `min_velocity = 40`
(the computed `grid = ticks_per_beat // 2` is never used). -/

/-- One track of `simplify_intermediate`, carrying the `active_notes`
set.  The `dite` on nonemptiness mirrors the source's redundant
`if active_notes:` membership test before `min(active_notes)`. -/
def intermediateTrack (active : Finset Nat) : List Msg → List Msg
  | [] => []
  | m :: rest =>
    match m with
    | .noteOn n v t =>
      if 0 < v then
        if v < 40 then intermediateTrack active rest
        else if 4 ≤ active.card then
          if h : active.Nonempty then
            if active.min' h < n then
              .noteOff (active.min' h) 0 0 :: .noteOn n v t ::
                intermediateTrack (insert n (active.erase (active.min' h))) rest
            else intermediateTrack active rest
          else .noteOn n v t :: intermediateTrack (insert n active) rest
        else .noteOn n v t :: intermediateTrack (insert n active) rest
      else .noteOn n v t :: intermediateTrack (active.erase n) rest
    | .noteOff n v t => .noteOff n v t :: intermediateTrack (active.erase n) rest
    | .setTempo tp t => .setTempo tp t :: intermediateTrack active rest
    | .endOfTrack t => .endOfTrack t :: intermediateTrack active rest
    | .other t => .other t :: intermediateTrack active rest

/-- `simplify_intermediate(mid)` (simplify.py, lines 86–139). -/
def simplify_intermediate (mid : MidiFile) : MidiFile :=
  { ticks_per_beat := mid.ticks_per_beat,
    tracks := mid.tracks.map (fun track => intermediateTrack ∅ track) }

/-! ## Beginner simplification (simplify.py, lines 142–226) -/

/-- Sort key second component:
`-msg.note if msg.type == "note_on" else 0`. -/
def eventKey2 (m : Msg) : Int :=
  match m with
  | .noteOn n _ _ => -(n : Int)
  | _ => 0

/-- Lexicographic comparison of `(abs_time, key2)` pairs, as Python
compares the sort-key tuples. -/
def eventLe (a b : Nat × Msg) : Bool :=
  decide (a.1 < b.1 ∨ (a.1 = b.1 ∧ eventKey2 a.2 ≤ eventKey2 b.2))

/-- All note messages of all tracks with absolute times
(simplify.py, lines 157–163). -/
def noteEventsAbs (tracks : List (List Msg)) : List (Nat × Msg) :=
  (tracks.map (fun tr => (toAbsMsgs tr).filter (fun e => e.2.isNote))).flatten

/-- Python's `max(msgs, key=lambda m: m.note)`: first element of
maximal note (ties keep the earlier element). -/
def pyMaxByNote : List Msg → Option Msg
  | [] => none
  | x :: xs => some (xs.foldl (fun best m => if best.note < m.note then m else best) x)

/-- Body of the per-grid-slot loop of `simplify_beginner`
(simplify.py, lines 178–207).  State: `(current_note, last_time,
emitted melody messages)`. -/
def processSlot (st : Option Nat × Nat × List Msg) (slot : Nat × List Msg) :
    Option Nat × Nat × List Msg :=
  let note_ons := slot.2.filter Msg.isPosNoteOn
  match pyMaxByNote note_ons with
  | none => st
  | some highest =>
    match st with
    | (some c, last, out) =>
      (some highest.note, slot.1,
        out ++ [Msg.noteOff c 0 (slot.1 - last),
                Msg.noteOn highest.note (min highest.velocity 100) 0])
    | (none, last, out) =>
      (some highest.note, slot.1,
        out ++ [Msg.noteOn highest.note (min highest.velocity 100) (slot.1 - last)])

/-- First `set_tempo` value in a track, if any. -/
def findTempoInTrack : List Msg → Option Nat
  | [] => none
  | .setTempo tp _ :: _ => some tp
  | _ :: rest => findTempoInTrack rest

/-- `_find_tempo(mid)` (simplify.py, lines 229–235): first `set_tempo`
scanning tracks in order, defaulting to `bpm2tempo(120) = 500000`. -/
def _find_tempo : List (List Msg) → Nat
  | [] => DEFAULT_TEMPO
  | tr :: rest =>
    match findTempoInTrack tr with
    | some tp => tp
    | none => _find_tempo rest

/-- The quantised grid position of an absolute-time event at grid
`grid` (ticks and grid are non-negative, so the `Int.toNat` is
lossless). -/
def qTime (grid : Nat) (e : Nat × Msg) : Nat :=
  (_quantise_tick (e.1 : Int) (grid : Int)).toNat

/-- The `(q_time, grid_events[q_time])` pairs of `simplify_beginner`
(simplify.py, lines 165–178): note events sorted stably by
`(abs_time, -note if note_on else 0)`, grouped by quantised time,
iterated over sorted keys. -/
def beginnerSlots (grid : Nat) (tracks : List (List Msg)) : List (Nat × List Msg) :=
  let events := sortStable eventLe (noteEventsAbs tracks)
  let qkeys := sortStable (fun a b => decide (a ≤ b))
    (dictKeys (events.map (qTime grid)))
  qkeys.map (fun q => (q, (events.filter (fun e => qTime grid e = q)).map (·.2)))

/-- The melody track built by `simplify_beginner` (simplify.py, lines
168–213 and 223): the slot loop, the closing `note_off` one grid unit
after the last start, and the `end_of_track` marker. -/
def beginnerMelody (grid : Nat) (tracks : List (List Msg)) : List Msg :=
  let res := (beginnerSlots grid tracks).foldl processSlot (none, 0, [])
  res.2.2 ++
    (match res.1 with | some c => [Msg.noteOff c 0 grid] | none => []) ++
    [Msg.endOfTrack 0]

/-- `simplify_beginner(mid)` (simplify.py, lines 142–226).
`int(tempo * 1.25)` is `5 * tempo / 4` rounded down (exact in double
precision for any MIDI tempo).  Faithful for `ticks_per_beat > 0`, the
data-model invariant (at `ticks_per_beat = 0` the source raises in
`_quantise_tick`). -/
def simplify_beginner (mid : MidiFile) : MidiFile :=
  { ticks_per_beat := mid.ticks_per_beat,
    tracks := [[Msg.setTempo (5 * _find_tempo mid.tracks / 4) 0, Msg.endOfTrack 0],
               beginnerMelody mid.ticks_per_beat mid.tracks] }

/-! ## Difficulty analysis (analyse.py) -/

/-- Python `max(list)` on a non-empty list (0 on `[]`, never called so). -/
def listMax : List Nat → Nat
  | [] => 0
  | x :: xs => xs.foldl max x

/-- Python `min(list)` on a non-empty list (0 on `[]`, never called so). -/
def listMin : List Nat → Nat
  | [] => 0
  | x :: xs => xs.foldl min x

/-- The report produced by `analyse` (analyse.py, lines 20–42). -/
structure DifficultyReport where
  level : Int
  label : String
  notes_per_second : Rat
  avg_polyphony : Rat
  pitch_range : Nat
  max_hand_span : Nat
  total_notes : Nat
  duration_seconds : Rat
  deriving DecidableEq, Repr

/-- `LEVEL_LABELS.get(level, "unknown")` (analyse.py, lines 45–56). -/
def LEVEL_LABELS (level : Int) : String :=
  if level = 1 then "beginner" else if level = 2 then "beginner+"
  else if level = 3 then "easy" else if level = 4 then "easy+"
  else if level = 5 then "intermediate" else if level = 6 then "intermediate+"
  else if level = 7 then "advanced" else if level = 8 then "advanced+"
  else if level = 9 then "expert" else if level = 10 then "concert"
  else "unknown"

/-- Notes-per-second sub-score (analyse.py, lines 147–157). -/
def npsScore (nps : Rat) : Int :=
  if nps < 2 then 1 else if nps < 4 then 3 else if nps < 7 then 5
  else if nps < 10 then 7 else 9

/-- Polyphony sub-score (analyse.py, lines 159–167). -/
def polyphonyScore (polyphony : Rat) : Int :=
  if polyphony < 3/2 then 1 else if polyphony < 5/2 then 3
  else if polyphony < 4 then 5 else 8

/-- Pitch-range sub-score (analyse.py, lines 169–177). -/
def pitchRangeScore (pitch_range : Int) : Int :=
  if pitch_range < 24 then 1 else if pitch_range < 36 then 3
  else if pitch_range < 48 then 5 else 7

/-- Hand-span sub-score (analyse.py, lines 179–187). -/
def handSpanScore (hand_span : Int) : Int :=
  if hand_span < 8 then 1 else if hand_span < 12 then 3
  else if hand_span < 15 then 5 else 7

/-- `level = round(score / 4); return max(1, min(10, level))`
(analyse.py, lines 189–191). -/
def scoreToLevel (score : Int) : Int :=
  max 1 (min 10 (roundHalfEven ((score : Rat) / 4)))

/-- `_estimate_level(nps, polyphony, pitch_range, hand_span)`
(analyse.py, lines 133–191): the four sequential `score +=` blocks,
then rounding and clamping. -/
def _estimate_level (nps polyphony : Rat) (pitch_range hand_span : Int) : Int :=
  scoreToLevel (npsScore nps + polyphonyScore polyphony +
    pitchRangeScore pitch_range + handSpanScore hand_span)

/-- The `(abs_time, msg.note)` list of positive-velocity note-ons,
track-major (analyse.py, lines 73–79). -/
def collectNoteOns (tracks : List (List Msg)) : List (Nat × Nat) :=
  ((tracks.map (fun tr => (toAbsMsgs tr).filter (fun e => e.2.isPosNoteOn))).flatten).map
    (fun e => (e.1, e.2.note))

/-- `analyse(mid)` (analyse.py, lines 59–130).  `none` models the
`ZeroDivisionError` raised at `int(t // window)` when
`window = ticks_per_beat // 8 = 0` (reached only past the degenerate
early return, i.e. with at least one note-on and nonzero duration).
Faithful for `ticks_per_beat > 0`, the data-model invariant. -/
def analyse (mid : MidiFile) : Option DifficultyReport :=
  let duration := midiLength mid
  let note_events := collectNoteOns mid.tracks
  if note_events = [] ∨ duration = 0 then
    some { level := 1, label := "beginner", notes_per_second := 0,
           avg_polyphony := 0, pitch_range := 0, max_hand_span := 0,
           total_notes := 0, duration_seconds := duration }
  else
    let total_notes := note_events.length
    let notes_per_second := (total_notes : Rat) / max duration (1/10)
    let pitches := note_events.map (·.2)
    let pitch_range := listMax pitches - listMin pitches
    let window := mid.ticks_per_beat / 8
    if window = 0 then none
    else
      let bucketKeys := dictKeys (note_events.map (fun e => e.1 / window))
      let bucketNotes := fun b =>
        (note_events.filter (fun e => e.1 / window = b)).map (·.2)
      let polyphonies := bucketKeys.map (fun b => (bucketNotes b).length)
      let avg_polyphony : Rat :=
        if polyphonies = [] then 0
        else ((polyphonies.foldl (· + ·) 0 : Nat) : Rat) / (polyphonies.length : Rat)
      let max_span := bucketKeys.foldl (fun acc b =>
        let notes := bucketNotes b
        if 1 < notes.length then max acc (listMax notes - listMin notes) else acc) 0
      let level := _estimate_level notes_per_second avg_polyphony
        (pitch_range : Int) (max_span : Int)
      some { level := level, label := LEVEL_LABELS level,
             notes_per_second := notes_per_second,
             avg_polyphony := avg_polyphony, pitch_range := pitch_range,
             max_hand_span := max_span, total_notes := total_notes,
             duration_seconds := duration }

/-! ## Spec-side scorer (for the refinement claim C8)

These definitions follow §4.2 of the spec verbatim: each metric's
sub-score comes from a fixed ordered breakpoint table with half-open,
lower-bound-inclusive ranges, and the final level is the rounded
average of the four sub-scores clamped to [1, 10]. -/

/-- Spec table for notes per second: `<2→1, [2,4)→3, [4,7)→5, [7,10)→7,
else→9`. -/
def npsScoreSpec (x : Rat) : Int :=
  if x < 2 then 1
  else if 2 ≤ x ∧ x < 4 then 3
  else if 4 ≤ x ∧ x < 7 then 5
  else if 7 ≤ x ∧ x < 10 then 7
  else 9

/-- Spec table for average polyphony: `<1.5→1, [1.5,2.5)→3, [2.5,4)→5,
else→8`. -/
def polyphonyScoreSpec (x : Rat) : Int :=
  if x < 3/2 then 1
  else if 3/2 ≤ x ∧ x < 5/2 then 3
  else if 5/2 ≤ x ∧ x < 4 then 5
  else 8

/-- Spec table for pitch range: `<24→1, [24,36)→3, [36,48)→5, else→7`. -/
def pitchRangeScoreSpec (x : Int) : Int :=
  if x < 24 then 1
  else if 24 ≤ x ∧ x < 36 then 3
  else if 36 ≤ x ∧ x < 48 then 5
  else 7

/-- Spec table for hand span: `<8→1, [8,12)→3, [12,15)→5, else→7`. -/
def handSpanScoreSpec (x : Int) : Int :=
  if x < 8 then 1
  else if 8 ≤ x ∧ x < 12 then 3
  else if 12 ≤ x ∧ x < 15 then 5
  else 7

/-- Spec final level: `round(sum of sub-scores / 4)` clamped to [1,10]. -/
def estimateLevelSpec (nps polyphony : Rat) (pitch_range hand_span : Int) : Int :=
  max 1 (min 10 (roundHalfEven
    (((npsScoreSpec nps + polyphonyScoreSpec polyphony +
       pitchRangeScoreSpec pitch_range + handSpanScoreSpec hand_span : Int) : Rat) / 4)))

/-! ## Theorems -/

lemma npsScore_eq_spec (x : Rat) : npsScore x = npsScoreSpec x := by
  unfold npsScore npsScoreSpec
  split_ifs with h1 h2 h3 h4 h5 h6 h7 <;> first | rfl | (exfalso; simp_all; try linarith)

lemma polyphonyScore_eq_spec (x : Rat) : polyphonyScore x = polyphonyScoreSpec x := by
  unfold polyphonyScore polyphonyScoreSpec
  split_ifs with h1 h2 h3 h4 h5 <;> first | rfl | (exfalso; simp_all; try linarith)

lemma pitchRangeScore_eq_spec (x : Int) : pitchRangeScore x = pitchRangeScoreSpec x := by
  unfold pitchRangeScore pitchRangeScoreSpec
  split_ifs with h1 h2 h3 h4 h5 <;> first | rfl | (exfalso; simp_all; try omega)

lemma handSpanScore_eq_spec (x : Int) : handSpanScore x = handSpanScoreSpec x := by
  unfold handSpanScore handSpanScoreSpec
  split_ifs with h1 h2 h3 h4 h5 <;> first | rfl | (exfalso; simp_all; try omega)

/-- C8: the difficulty scorer is a pure function of the four metrics;
each metric contributes its sub-score from the fixed half-open
breakpoint table of the spec (nps: <2→1, <4→3, <7→5, <10→7, else 9;
polyphony: <1.5→1, <2.5→3, <4→5, else 8; pitchRange: <24→1, <36→3,
<48→5, else 7; handSpan: <8→1, <12→3, <15→5, else 7), and the final
level is round(sum of sub-scores / 4) clamped to [1, 10]. -/
theorem c8_scorer_table (nps polyphony : Rat) (pitch_range hand_span : Int) :
    _estimate_level nps polyphony pitch_range hand_span =
      estimateLevelSpec nps polyphony pitch_range hand_span := by
  unfold _estimate_level estimateLevelSpec scoreToLevel
  rw [npsScore_eq_spec, polyphonyScore_eq_spec, pitchRangeScore_eq_spec,
    handSpanScore_eq_spec]

/-- C10: both "round half" operations resolve ties half-to-even: the
scorer's final step maps a sub-score sum of 18 (average 4.5) to level 4
and a sum of 22 (average 5.5) to level 6, and `_quantise_tick` snaps a
value exactly halfway between two grid points (`2 * v = g * (2k + 1)`)
to the even multiple of the grid. -/
theorem c10_round_half_even :
    scoreToLevel 18 = 4 ∧ scoreToLevel 22 = 6 ∧
    ∀ v g k : Int, 0 < g → 2 * v = g * (2 * k + 1) →
      _quantise_tick v g = (if k % 2 = 0 then k else k + 1) * g ∧
      (if k % 2 = 0 then k else k + 1) % 2 = 0 := by
  refine ⟨?_, ?_, ?_⟩
  · unfold scoreToLevel roundHalfEven
    norm_num
  · unfold scoreToLevel roundHalfEven
    norm_num
  · intro v g k hg h2
    have hgQ : (g : Rat) ≠ 0 := by exact_mod_cast hg.ne'
    have h2Q : (2 : Rat) * (v : Rat) = (g : Rat) * (2 * (k : Rat) + 1) := by
      exact_mod_cast congrArg (fun z : Int => (z : Rat)) h2
    have hq : (v : Rat) / (g : Rat) = (k : Rat) + 1/2 := by
      rw [div_eq_iff hgQ]
      ring_nf
      ring_nf at h2Q
      linarith
    have hfl : ⌊(k : Rat) + 1/2⌋ = k := by
      have h0 : ((k : Int) : Rat) ≤ (k : Rat) + 1/2 := by norm_num
      have h1 : (k : Rat) + 1/2 < (k : Int) + 1 := by norm_num
      exact Int.floor_eq_iff.mpr ⟨h0, h1⟩
    constructor
    · unfold _quantise_tick roundHalfEven
      rw [hq, hfl]
      have hr : (k : Rat) + 1/2 - (k : Int) = 1/2 := by ring
      simp only [hr]
      norm_num
    · rcases Int.emod_two_eq_zero_or_one k with h | h
      · simp [h]
      · simp [h]
        omega

/-- Witness for C10: at `v = 3`, `g = 2` (halfway between multiples 1
and 2 of the grid) the quantiser returns the even multiple. -/
theorem c10_round_half_even_witness :
    _quantise_tick 3 2 = (if (1:Int) % 2 = 0 then 1 else 1 + 1) * 2 ∧
      (if (1:Int) % 2 = 0 then (1:Int) else 1 + 1) % 2 = 0 :=
  c10_round_half_even.2.2 3 2 1 (by norm_num) (by norm_num)

/-- C1 (evaluation at the failing input): `simplify_advanced` on a
480-tpb file holding one note that starts at tick 480 (on the 16th-note
grid) and lasts 5 ticks (≈5.2 ms ≪ 30 ms) keeps the short note and
rewrites every delta time to 0, instead of dropping the note and
re-encoding the quantised absolute times: the quantised value is
computed but discarded and `_recalculate_deltas` is a placeholder. -/
theorem c1_advanced_keeps_short_note_zeroes_times :
    simplify_advanced
        ⟨480, [[.noteOn 60 80 480, .noteOff 60 0 5, .endOfTrack 0]]⟩ =
      some ⟨480, [[.noteOn 60 80 0, .noteOff 60 0 0, .endOfTrack 0]]⟩ := by
  decide

lemma Msg.isNote_withTime0 (m : Msg) : m.withTime0.isNote = m.isNote := by
  cases m <;> rfl

lemma Msg.withTime0_idem (m : Msg) : m.withTime0.withTime0 = m.withTime0 := by
  cases m <;> rfl

lemma advTrackGo_idem (grid : Nat) :
    ∀ (track : List Msg) (ct : Nat) (l : List Msg),
      advTrackGo grid ct track = some l →
      ∀ ct', advTrackGo grid ct' l = some l := by
  intro track
  induction track with
  | nil =>
    intro ct l h ct'
    simp only [advTrackGo] at h
    cases h
    rfl
  | cons m rest ih =>
    intro ct l h ct'
    simp only [advTrackGo] at h
    by_cases hn : m.isNote
    · rw [if_pos hn] at h
      rcases hq : quantiseTickChecked ((ct + m.time : Nat) : Int) (grid : Int) with _ | q
      · rw [hq] at h; cases h
      · rw [hq] at h
        rcases Option.map_eq_some'.mp h with ⟨lr, hlr, rfl⟩
        have hg : (grid : Int) ≠ 0 := by
          intro h0
          simp [quantiseTickChecked, h0] at hq
        simp only [advTrackGo, Msg.isNote_withTime0, hn, if_pos,
          quantiseTickChecked, hg, if_neg, ite_false]
        rw [ih _ _ hlr]
        simp [Msg.withTime0_idem]
    · rw [if_neg hn] at h
      rcases Option.map_eq_some'.mp h with ⟨lr, hlr, rfl⟩
      simp only [advTrackGo, Msg.isNote_withTime0, hn, if_neg, Bool.false_eq_true,
        ite_false]
      rw [ih _ _ hlr]
      simp [Msg.withTime0_idem]

lemma advTracks_idem (grid : Nat) :
    ∀ (tracks trs : List (List Msg)),
      advTracks grid tracks = some trs → advTracks grid trs = some trs := by
  intro tracks
  induction tracks with
  | nil =>
    intro trs h
    simp only [advTracks] at h
    cases h
    rfl
  | cons tr rest ih =>
    intro trs h
    simp only [advTracks] at h
    rcases htr : advTrackGo grid 0 tr with _ | nt
    · rw [htr] at h
      simp at h
    · rw [htr] at h
      simp only [Option.map_some', _recalculate_deltas] at h
      rcases Option.map_eq_some'.mp h with ⟨nts, hrest, rfl⟩
      have hnt : advTrackGo grid 0 nt = some nt := advTrackGo_idem grid tr 0 nt htr 0
      simp only [advTracks, hnt, Option.map_some', _recalculate_deltas, ih nts hrest]

/-- C5: Advanced simplification is idempotent — applying
`simplify_advanced` to its own output reproduces that output (stated
with `Option.bind` so that a raising first application, possible when
`ticks_per_beat < 4`, propagates on both sides). -/
theorem c5_advanced_idempotent (mid : MidiFile) :
    (simplify_advanced mid).bind simplify_advanced = simplify_advanced mid := by
  rcases h : advTracks (mid.ticks_per_beat / 4) mid.tracks with _ | trs
  · simp [simplify_advanced, h]
  · have h2 := advTracks_idem _ _ _ h
    simp [simplify_advanced, h, h2]

/-- C2 (counterexample): a note-start of velocity 20 is discarded by
the velocity filter, yet the matching note-stop is still emitted — the
output track contains the stop for a pitch that was never active, which
the claim says must be suppressed. -/
theorem c2_stop_of_discarded_note_still_emitted :
    simplify_intermediate
        ⟨480, [[.noteOn 60 20 0, .noteOff 60 0 480, .endOfTrack 0]]⟩ =
      ⟨480, [[.noteOff 60 0 480, .endOfTrack 0]]⟩ := by
  decide

lemma intermediateTrack_stop_mem (m : Msg) (hstop : m.isStop = true) :
    ∀ (track : List Msg) (active : Finset Nat), m ∈ track →
      m ∈ intermediateTrack active track := by
  intro track
  induction track with
  | nil =>
    intro active hm
    cases hm
  | cons x rest ih =>
    intro active hm
    rcases List.mem_cons.mp hm with rfl | hm'
    · cases m with
      | noteOn n v t =>
        have hv : v = 0 := by simpa [Msg.isStop] using hstop
        subst hv
        simp [intermediateTrack]
      | noteOff n v t => simp [intermediateTrack]
      | setTempo tp t => simp [Msg.isStop] at hstop
      | endOfTrack t => simp [Msg.isStop] at hstop
      | other t => simp [Msg.isStop] at hstop
    · cases x with
      | noteOn n v t =>
        simp only [intermediateTrack]
        split_ifs with h0 h40 hcard hne hlow <;>
          first
            | exact ih _ hm'
            | exact List.mem_cons_of_mem _ (ih _ hm')
            | exact List.mem_cons_of_mem _ (List.mem_cons_of_mem _ (ih _ hm'))
      | noteOff n v t => exact List.mem_cons_of_mem _ (ih _ hm')
      | setTempo tp t => exact List.mem_cons_of_mem _ (ih _ hm')
      | endOfTrack t => exact List.mem_cons_of_mem _ (ih _ hm')
      | other t => exact List.mem_cons_of_mem _ (ih _ hm')

/-- C2 (amended): during Intermediate simplification every note-stop
event (or zero-velocity note-start used as a stop) of an input track is
emitted in the corresponding output track unconditionally — whether or
not its pitch is in the active set (the pitch is merely removed from
the set); nothing is suppressed. -/
theorem c2_stops_always_emitted (mid : MidiFile) (track : List Msg) (m : Msg)
    (htr : track ∈ mid.tracks) (hm : m ∈ track) (hstop : m.isStop = true) :
    m ∈ intermediateTrack ∅ track ∧
      intermediateTrack ∅ track ∈ (simplify_intermediate mid).tracks := by
  refine ⟨intermediateTrack_stop_mem m hstop track ∅ hm, ?_⟩
  simp only [simplify_intermediate]
  exact List.mem_map_of_mem _ htr

/-- Witness for C2 (amended): the stop of the velocity-20 note of the
counterexample input is emitted even though its pitch is inactive. -/
theorem c2_stops_always_emitted_witness :
    Msg.noteOff 60 0 480 ∈
        intermediateTrack ∅ [.noteOn 60 20 0, .noteOff 60 0 480, .endOfTrack 0] ∧
      intermediateTrack ∅ [.noteOn 60 20 0, .noteOff 60 0 480, .endOfTrack 0] ∈
        (simplify_intermediate
          ⟨480, [[.noteOn 60 20 0, .noteOff 60 0 480, .endOfTrack 0]]⟩).tracks :=
  c2_stops_always_emitted ⟨480, [[.noteOn 60 20 0, .noteOff 60 0 480, .endOfTrack 0]]⟩
    [.noteOn 60 20 0, .noteOff 60 0 480, .endOfTrack 0] (.noteOff 60 0 480)
    (by decide) (by decide) (by decide)

/-- C3 (counterexample): `simplify_intermediate` bounds polyphony only
per track.  Two tracks of four loud simultaneous notes each pass
through unchanged, and replaying the merged output timeline reaches 8
simultaneously active notes. -/
theorem c3_merged_replay_exceeds_four :
    4 < maxSimultaneous (mergedMsgs (simplify_intermediate
      ⟨480, [[.noteOn 60 80 0, .noteOn 62 80 0, .noteOn 64 80 0, .noteOn 65 80 0,
              .endOfTrack 0],
             [.noteOn 70 80 0, .noteOn 72 80 0, .noteOn 74 80 0, .noteOn 76 80 0,
              .endOfTrack 0]]⟩)) := by
  decide

lemma foldl_replay_cons (a : Finset Nat) (mx : Nat) (m : Msg) (rest : List Msg) :
    (m :: rest).foldl replayFold (a, mx) =
      rest.foldl replayFold (replayStep a m, max mx (replayStep a m).card) := by
  rfl

lemma intermediateTrack_replay (track : List Msg) :
    ∀ (active : Finset Nat) (mx : Nat), active.card ≤ 4 →
      ((intermediateTrack active track).foldl replayFold (active, mx)).2 ≤ max mx 4 := by
  induction track with
  | nil =>
    intro active mx hcard
    simp only [intermediateTrack, List.foldl_nil]
    exact Nat.le_max_left mx 4
  | cons x rest ih =>
    intro active mx hcard
    cases x with
    | noteOn n v t =>
      simp only [intermediateTrack]
      split_ifs with h0 h40 hc hne hlow
      · exact ih active mx hcard
      · -- eviction: card = 4, erase the minimum, admit the new pitch
        have hmem : active.min' hne ∈ active := active.min'_mem hne
        have hde : (active.erase (active.min' hne)).card = active.card - 1 :=
          Finset.card_erase_of_mem hmem
        have hc4 : active.card = 4 := le_antisymm hcard hc
        rw [foldl_replay_cons, foldl_replay_cons]
        have hstep1 : replayStep active (Msg.noteOff (active.min' hne) 0 0) =
            active.erase (active.min' hne) := rfl
        rw [hstep1]
        have hv : 0 < v := by omega
        have hstep2 : replayStep (active.erase (active.min' hne)) (Msg.noteOn n v t) =
            insert n (active.erase (active.min' hne)) := by
          simp [replayStep, hv]
        rw [hstep2]
        have hcard' : (insert n (active.erase (active.min' hne))).card ≤ 4 := by
          calc (insert n (active.erase (active.min' hne))).card
              ≤ (active.erase (active.min' hne)).card + 1 := Finset.card_insert_le _ _
            _ ≤ 4 := by omega
        have := ih (insert n (active.erase (active.min' hne)))
          (max (max mx (active.erase (active.min' hne)).card)
            (insert n (active.erase (active.min' hne))).card) hcard'
        refine le_trans this ?_
        have herase : (active.erase (active.min' hne)).card ≤ 4 := by omega
        omega
      · exact ih active mx hcard
      · -- unreachable arm of the redundant nonempty test: active = ∅
        exfalso
        rw [Finset.not_nonempty_iff_eq_empty] at hne
        subst hne
        simp at hc
      · -- plain admission: fewer than four active notes
        rw [foldl_replay_cons]
        have hv : 0 < v := h0
        have hstep : replayStep active (Msg.noteOn n v t) = insert n active := by
          simp [replayStep, hv]
        rw [hstep]
        have hcard' : (insert n active).card ≤ 4 := by
          have h3 : active.card ≤ 3 := by omega
          calc (insert n active).card ≤ active.card + 1 := Finset.card_insert_le _ _
            _ ≤ 4 := by omega
        have := ih (insert n active) (max mx (insert n active).card) hcard'
        refine le_trans this ?_
        omega
      · -- zero-velocity note-on: replay erases the pitch
        rw [foldl_replay_cons]
        have hv : v = 0 := by omega
        have hstep : replayStep active (Msg.noteOn n v t) = active.erase n := by
          simp [replayStep, hv]
        rw [hstep]
        have hcard' : (active.erase n).card ≤ 4 :=
          le_trans (Finset.card_erase_le) hcard
        have := ih (active.erase n) (max mx (active.erase n).card) hcard'
        refine le_trans this ?_
        omega
    | noteOff n v t =>
      simp only [intermediateTrack]
      rw [foldl_replay_cons]
      have hstep : replayStep active (Msg.noteOff n v t) = active.erase n := rfl
      rw [hstep]
      have hcard' : (active.erase n).card ≤ 4 :=
        le_trans (Finset.card_erase_le) hcard
      have := ih (active.erase n) (max mx (active.erase n).card) hcard'
      refine le_trans this ?_
      omega
    | setTempo tp t =>
      simp only [intermediateTrack]
      rw [foldl_replay_cons]
      have hstep : replayStep active (Msg.setTempo tp t) = active := rfl
      rw [hstep]
      have := ih active (max mx active.card) hcard
      refine le_trans this ?_
      omega
    | endOfTrack t =>
      simp only [intermediateTrack]
      rw [foldl_replay_cons]
      have := ih active (max mx active.card) hcard
      refine le_trans this ?_
      omega
    | other t =>
      simp only [intermediateTrack]
      rw [foldl_replay_cons]
      have := ih active (max mx active.card) hcard
      refine le_trans this ?_
      omega

lemma intermediateTrack_velocity (track : List Msg) :
    ∀ (active : Finset Nat) (m : Msg), m ∈ intermediateTrack active track →
      m.isPosNoteOn = true → 40 ≤ m.velocity := by
  induction track with
  | nil =>
    intro active m hm
    cases hm
  | cons x rest ih =>
    intro active m hm hpos
    cases x with
    | noteOn n v t =>
      simp only [intermediateTrack] at hm
      split_ifs at hm with h0 h40 hc hne hlow
      · exact ih _ _ hm hpos
      · rcases List.mem_cons.mp hm with rfl | hm'
        · simp [Msg.isPosNoteOn] at hpos
        · rcases List.mem_cons.mp hm' with rfl | hm''
          · simpa [Msg.velocity] using (by omega : 40 ≤ v)
          · exact ih _ _ hm'' hpos
      · exact ih _ _ hm hpos
      · rcases List.mem_cons.mp hm with rfl | hm'
        · simpa [Msg.velocity] using (by omega : 40 ≤ v)
        · exact ih _ _ hm' hpos
      · rcases List.mem_cons.mp hm with rfl | hm'
        · simpa [Msg.velocity] using (by omega : 40 ≤ v)
        · exact ih _ _ hm' hpos
      · rcases List.mem_cons.mp hm with rfl | hm'
        · have hv : v = 0 := by omega
          simp [Msg.isPosNoteOn, hv] at hpos
        · exact ih _ _ hm' hpos
    | noteOff n v t =>
      simp only [intermediateTrack] at hm
      rcases List.mem_cons.mp hm with rfl | hm'
      · simp [Msg.isPosNoteOn] at hpos
      · exact ih _ _ hm' hpos
    | setTempo tp t =>
      simp only [intermediateTrack] at hm
      rcases List.mem_cons.mp hm with rfl | hm'
      · simp [Msg.isPosNoteOn] at hpos
      · exact ih _ _ hm' hpos
    | endOfTrack t =>
      simp only [intermediateTrack] at hm
      rcases List.mem_cons.mp hm with rfl | hm'
      · simp [Msg.isPosNoteOn] at hpos
      · exact ih _ _ hm' hpos
    | other t =>
      simp only [intermediateTrack] at hm
      rcases List.mem_cons.mp hm with rfl | hm'
      · simp [Msg.isPosNoteOn] at hpos
      · exact ih _ _ hm' hpos

/-- C3 (amended): within each single track of the output of
Intermediate simplification, replaying the events in order never has
more than 4 simultaneously active notes, and no emitted note-start with
positive velocity has velocity below 40.  (Across tracks the bound does
not hold: each track has its own active set — see the
counterexample.) -/
theorem c3_per_track_polyphony_and_velocity (mid : MidiFile) (tr : List Msg)
    (htr : tr ∈ (simplify_intermediate mid).tracks) :
    maxSimultaneous tr ≤ 4 ∧
      ∀ m ∈ tr, m.isPosNoteOn = true → 40 ≤ m.velocity := by
  simp only [simplify_intermediate, List.mem_map] at htr
  rcases htr with ⟨track, _, rfl⟩
  constructor
  · have h := intermediateTrack_replay track ∅ 0 (by simp)
    simpa [maxSimultaneous] using h
  · intro m hm hpos
    exact intermediateTrack_velocity track ∅ m hm hpos

/-- Witness for C3 (amended): the single-track counterexample input's
output track satisfies both per-track invariants. -/
theorem c3_per_track_polyphony_and_velocity_witness :
    maxSimultaneous (intermediateTrack ∅
        [.noteOn 60 20 0, .noteOff 60 0 480, .endOfTrack 0]) ≤ 4 ∧
      ∀ m ∈ intermediateTrack ∅
        [.noteOn 60 20 0, .noteOff 60 0 480, .endOfTrack 0],
        m.isPosNoteOn = true → 40 ≤ m.velocity :=
  c3_per_track_polyphony_and_velocity
    ⟨480, [[.noteOn 60 20 0, .noteOff 60 0 480, .endOfTrack 0]]⟩
    (intermediateTrack ∅ [.noteOn 60 20 0, .noteOff 60 0 480, .endOfTrack 0])
    (by decide)

/-! ## Beginner simplification: monophony and melody selection -/

/-- The active set denoted by the beginner loop's `current_note`. -/
def optSet : Option Nat → Finset Nat
  | some n => {n}
  | none => ∅

lemma foldl_maxBy_mem (xs : List Msg) :
    ∀ best, xs.foldl (fun best m => if best.note < m.note then m else best) best
      ∈ best :: xs := by
  induction xs with
  | nil => intro best; simp
  | cons x xs ih =>
    intro best
    simp only [List.foldl_cons]
    rcases List.mem_cons.mp (ih (if best.note < x.note then x else best)) with h | h
    · rw [h]
      split_ifs
      · exact List.mem_cons_of_mem _ (List.mem_cons_self _ _)
      · exact List.mem_cons_self _ _
    · exact List.mem_cons_of_mem _ (List.mem_cons_of_mem _ h)

lemma foldl_maxBy_le_base (xs : List Msg) :
    ∀ best, best.note ≤
      (xs.foldl (fun best m => if best.note < m.note then m else best) best).note := by
  induction xs with
  | nil => intro best; exact le_refl _
  | cons x xs ih =>
    intro best
    simp only [List.foldl_cons]
    refine le_trans ?_ (ih (if best.note < x.note then x else best))
    split_ifs with h
    · exact le_of_lt h
    · exact le_refl _

lemma foldl_maxBy_le (xs : List Msg) :
    ∀ best m, m ∈ xs →
      m.note ≤ (xs.foldl (fun best m => if best.note < m.note then m else best) best).note := by
  induction xs with
  | nil =>
    intro best m hm
    cases hm
  | cons x xs ih =>
    intro best m hm
    simp only [List.foldl_cons]
    rcases List.mem_cons.mp hm with rfl | h
    · refine le_trans ?_ (foldl_maxBy_le_base xs (if best.note < m.note then m else best))
      split_ifs with h
      · exact le_refl _
      · exact le_of_not_lt h
    · exact ih _ m h

lemma pyMaxByNote_spec (l : List Msg) (sel : Msg) (h : pyMaxByNote l = some sel) :
    sel ∈ l ∧ ∀ m ∈ l, m.note ≤ sel.note := by
  cases l with
  | nil => cases h
  | cons x xs =>
    simp only [pyMaxByNote, Option.some.injEq] at h
    subst h
    refine ⟨foldl_maxBy_mem xs x, ?_⟩
    intro m hm
    rcases List.mem_cons.mp hm with rfl | h
    · exact foldl_maxBy_le_base xs m
    · exact foldl_maxBy_le xs x m h

lemma processSlots_replay (slots : List (Nat × List Msg)) :
    ∀ (cur : Option Nat) (last : Nat) (out : List Msg) (mx : Nat),
      out.foldl replayFold (∅, 0) = (optSet cur, mx) → mx ≤ 1 →
      ∃ cur' last' out' mx',
        slots.foldl processSlot (cur, last, out) = (cur', last', out') ∧
        out'.foldl replayFold (∅, 0) = (optSet cur', mx') ∧ mx' ≤ 1 := by
  induction slots with
  | nil =>
    intro cur last out mx h hmx
    exact ⟨cur, last, out, mx, rfl, h, hmx⟩
  | cons slot rest ih =>
    intro cur last out mx h hmx
    rw [List.foldl_cons]
    rcases hsel : pyMaxByNote (slot.2.filter Msg.isPosNoteOn) with _ | sel
    · have hps : processSlot (cur, last, out) slot = (cur, last, out) := by
        simp only [processSlot, hsel]
      rw [hps]
      exact ih cur last out mx h hmx
    · have hmem := (pyMaxByNote_spec _ _ hsel).1
      have hpos : sel.isPosNoteOn = true := (List.mem_filter.mp hmem).2
      have hv : 0 < sel.velocity := by
        cases sel with
        | noteOn n v t => simpa [Msg.isPosNoteOn, Msg.velocity] using hpos
        | noteOff n v t => simp [Msg.isPosNoteOn] at hpos
        | setTempo tp t => simp [Msg.isPosNoteOn] at hpos
        | endOfTrack t => simp [Msg.isPosNoteOn] at hpos
        | other t => simp [Msg.isPosNoteOn] at hpos
      have hv' : 0 < min sel.velocity 100 := by omega
      cases cur with
      | some c =>
        have hps : processSlot (some c, last, out) slot =
            (some sel.note, slot.1,
              out ++ [Msg.noteOff c 0 (slot.1 - last),
                      Msg.noteOn sel.note (min sel.velocity 100) 0]) := by
          simp only [processSlot, hsel]
        rw [hps]
        refine ih (some sel.note) slot.1 _ (max mx 1) ?_ (by omega)
        rw [List.foldl_append, h]
        simp only [List.foldl_cons, List.foldl_nil, replayFold, replayStep, hv',
          if_pos, optSet]
        rw [Finset.erase_singleton]
        simp
      | none =>
        have hps : processSlot (none, last, out) slot =
            (some sel.note, slot.1,
              out ++ [Msg.noteOn sel.note (min sel.velocity 100) (slot.1 - last)]) := by
          simp only [processSlot, hsel]
        rw [hps]
        refine ih (some sel.note) slot.1 _ (max mx 1) ?_ (by omega)
        rw [List.foldl_append, h]
        simp only [List.foldl_cons, List.foldl_nil, replayFold, replayStep, hv',
          if_pos, optSet]
        simp

/-- C6: in the output of Beginner simplification at most one note is
active at any instant of the replayed timeline (the tempo track holds
no notes; in the melody track each new note-start is preceded by a stop
for the still-sounding previous note at the same point), and a final
stop closes the last active note, so the replay ends with no note
sounding. -/
theorem c6_beginner_monophonic (mid : MidiFile) (h : 0 < mid.ticks_per_beat) :
    maxSimultaneous ((simplify_beginner mid).tracks.flatten) ≤ 1 ∧
      finalActive ((simplify_beginner mid).tracks.flatten) = ∅ := by
  have hflat : (simplify_beginner mid).tracks.flatten =
      [Msg.setTempo (5 * _find_tempo mid.tracks / 4) 0, Msg.endOfTrack 0] ++
        beginnerMelody mid.ticks_per_beat mid.tracks := by
    simp [simplify_beginner]
  rcases processSlots_replay (beginnerSlots mid.ticks_per_beat mid.tracks)
      none 0 [] 0 (by simp [optSet]) (by omega) with
    ⟨cur', last', out', mx', hfold, hreplay, hmx⟩
  have h1 : ([Msg.setTempo (5 * _find_tempo mid.tracks / 4) 0,
      Msg.endOfTrack 0] : List Msg).foldl replayFold (∅, 0) = (∅, 0) := by
    simp [replayFold, replayStep]
  have hfold2 : ((simplify_beginner mid).tracks.flatten).foldl replayFold (∅, 0) =
      (∅, mx') := by
    cases cur' with
    | some c =>
      have hmel : beginnerMelody mid.ticks_per_beat mid.tracks =
          out' ++ [Msg.noteOff c 0 mid.ticks_per_beat] ++ [Msg.endOfTrack 0] := by
        simp only [beginnerMelody, hfold]
      rw [hflat, hmel]
      rw [List.foldl_append, List.foldl_append, List.foldl_append, h1, hreplay]
      simp [replayFold, replayStep, optSet, Finset.erase_singleton]
    | none =>
      have hmel : beginnerMelody mid.ticks_per_beat mid.tracks =
          out' ++ [] ++ [Msg.endOfTrack 0] := by
        simp only [beginnerMelody, hfold]
      rw [hflat, hmel]
      rw [List.foldl_append, List.foldl_append, List.foldl_append, h1, hreplay]
      simp [replayFold, replayStep, optSet]
  constructor
  · rw [maxSimultaneous, hfold2]
    exact hmx
  · rw [finalActive, hfold2]

/-- Witness for C6 at the repository's own chord test input
(three simultaneous notes 60, 64, 67). -/
theorem c6_beginner_monophonic_witness :
    maxSimultaneous ((simplify_beginner
        ⟨480, [[.noteOn 60 80 0, .noteOn 64 80 0, .noteOn 67 80 0,
                .noteOff 60 0 480, .noteOff 64 0 0, .noteOff 67 0 0,
                .endOfTrack 0]]⟩).tracks.flatten) ≤ 1 ∧
      finalActive ((simplify_beginner
        ⟨480, [[.noteOn 60 80 0, .noteOn 64 80 0, .noteOn 67 80 0,
                .noteOff 60 0 480, .noteOff 64 0 0, .noteOff 67 0 0,
                .endOfTrack 0]]⟩).tracks.flatten) = ∅ :=
  c6_beginner_monophonic
    ⟨480, [[.noteOn 60 80 0, .noteOn 64 80 0, .noteOn 67 80 0,
            .noteOff 60 0 480, .noteOff 64 0 0, .noteOff 67 0 0,
            .endOfTrack 0]]⟩ (by decide)

/-- C7: in Beginner simplification, a grid-time group containing at
least one positive-velocity note-start (i.e. `pyMaxByNote` of the
filtered group returns a message) selects exactly one melody note: a
highest-pitch note-start of the group; the slot emits a single
note-start with that pitch and velocity `min(original, 100)` (preceded
by a stop for the previous melody note when one is sounding); all other
voices of the group are discarded. -/
theorem c7_beginner_selects_highest (st : Option Nat × Nat × List Msg)
    (q : Nat) (msgs : List Msg) (sel : Msg)
    (hsel : pyMaxByNote (msgs.filter Msg.isPosNoteOn) = some sel) :
    sel ∈ msgs.filter Msg.isPosNoteOn ∧
      (∀ m ∈ msgs.filter Msg.isPosNoteOn, m.note ≤ sel.note) ∧
      processSlot st (q, msgs) =
        (some sel.note, q, st.2.2 ++
          (match st.1 with
           | some c => [Msg.noteOff c 0 (q - st.2.1),
                        Msg.noteOn sel.note (min sel.velocity 100) 0]
           | none => [Msg.noteOn sel.note (min sel.velocity 100) (q - st.2.1)])) := by
  obtain ⟨hmem, hub⟩ := pyMaxByNote_spec _ _ hsel
  refine ⟨hmem, hub, ?_⟩
  obtain ⟨cur, last, out⟩ := st
  cases cur <;> simp [processSlot, hsel]

/-- Witness for C7: in the group `{note_on(60, vel 80), note_on(67,
vel 120)}` at grid time 0 with no previous melody note, the slot emits
exactly `note_on(67, vel 100)` — the highest pitch, velocity capped at
100. -/
theorem c7_beginner_selects_highest_witness :
    Msg.noteOn 67 120 0 ∈
        ([Msg.noteOn 60 80 0, Msg.noteOn 67 120 0].filter Msg.isPosNoteOn) ∧
      (∀ m ∈ ([Msg.noteOn 60 80 0, Msg.noteOn 67 120 0].filter Msg.isPosNoteOn),
        m.note ≤ (Msg.noteOn 67 120 0).note) ∧
      processSlot (none, 0, []) (0, [Msg.noteOn 60 80 0, Msg.noteOn 67 120 0]) =
        (some 67, 0, [Msg.noteOn 67 100 0]) :=
  c7_beginner_selects_highest (none, 0, []) 0
    [Msg.noteOn 60 80 0, Msg.noteOn 67 120 0] (Msg.noteOn 67 120 0) (by decide)

/-! ## Analyse: the degenerate early return and the bucket window -/

/-- C4 (counterexample): a file with no note-starts but a 480-tick
delay has duration 1/2 s; `analyse` returns the degenerate report with
`duration_seconds = 1/2`, not 0 — the claim that every field including
`duration_seconds` is zero fails. -/
theorem c4_degenerate_duration_not_zero :
    analyse ⟨480, [[.noteOff 60 0 480, .endOfTrack 0]]⟩ =
      some { level := 1, label := "beginner", notes_per_second := 0,
             avg_polyphony := 0, pitch_range := 0, max_hand_span := 0,
             total_notes := 0, duration_seconds := 1/2 } ∧
      ((1 : Rat)/2) ≠ 0 := by
  refine ⟨?_, by norm_num⟩
  have hlen : midiLength ⟨480, [[.noteOff 60 0 480, .endOfTrack 0]]⟩ = 1/2 := by
    norm_num [midiLength, mergedAbs, toAbsMsgs, sortStable, insertLe, lengthLoop,
      DEFAULT_TEMPO, Msg.time]
  simp only [analyse]
  rw [if_pos (Or.inl (by decide))]
  rw [hlen]

/-- C4 (amended): for every input with zero positive-velocity
note-starts or zero duration, `analyse` returns the defined early
return, bypassing the scorer: level 1, label "beginner", every numeric
metric 0 — except `duration_seconds`, which reports the stream's actual
duration. -/
theorem c4_degenerate_early_return (mid : MidiFile) (h : 0 < mid.ticks_per_beat)
    (hdeg : collectNoteOns mid.tracks = [] ∨ midiLength mid = 0) :
    analyse mid = some { level := 1, label := "beginner",
                         notes_per_second := 0, avg_polyphony := 0,
                         pitch_range := 0, max_hand_span := 0,
                         total_notes := 0,
                         duration_seconds := midiLength mid } := by
  simp only [analyse]
  rw [if_pos hdeg]

/-- Witness for C4 (amended) at the counterexample input. -/
theorem c4_degenerate_early_return_witness :
    analyse ⟨480, [[.noteOff 60 0 480, .endOfTrack 0]]⟩ =
      some { level := 1, label := "beginner", notes_per_second := 0,
             avg_polyphony := 0, pitch_range := 0, max_hand_span := 0,
             total_notes := 0,
             duration_seconds :=
               midiLength ⟨480, [[.noteOff 60 0 480, .endOfTrack 0]]⟩ } :=
  c4_degenerate_early_return ⟨480, [[.noteOff 60 0 480, .endOfTrack 0]]⟩
    (by norm_num) (Or.inl (by decide))

/-- C9 (counterexample): a file with `ticks_per_beat = 4 < 8` holding a
positive-velocity note-on, but with all delta times zero, has duration
0 — `analyse` takes the degenerate early return and succeeds instead of
failing with a division by zero, so the claim's quantification over
every such input fails. -/
theorem c9_zero_duration_escapes_crash :
    (analyse ⟨4, [[.noteOn 60 80 0, .endOfTrack 0]]⟩).isSome = true ∧
      (4 : Nat) < 8 ∧
      collectNoteOns [[Msg.noteOn 60 80 0, Msg.endOfTrack 0]] ≠ [] := by
  refine ⟨?_, by norm_num, by decide⟩
  have hdur : midiLength ⟨4, [[.noteOn 60 80 0, .endOfTrack 0]]⟩ = 0 := by
    norm_num [midiLength, mergedAbs, toAbsMsgs, sortStable, insertLe, lengthLoop,
      DEFAULT_TEMPO, Msg.time]
  simp only [analyse]
  rw [if_pos (Or.inr hdur)]
  rfl

/-- C9 (amended): `analyse` buckets polyphony with window
`ticksPerBeat / 8` (floor), so it returns a report for every input with
`ticks_per_beat ≥ 8`; and for every input with `ticks_per_beat < 8`
that has at least one positive-velocity note-on AND nonzero duration
(so that the degenerate early return is not taken), it fails with a
division by zero instead of returning a report. -/
theorem c9_window_division_by_zero :
    (∀ mid : MidiFile, 8 ≤ mid.ticks_per_beat → (analyse mid).isSome = true) ∧
      (∀ mid : MidiFile, 0 < mid.ticks_per_beat → mid.ticks_per_beat < 8 →
        collectNoteOns mid.tracks ≠ [] → midiLength mid ≠ 0 →
        analyse mid = none) := by
  constructor
  · intro mid h8
    simp only [analyse]
    by_cases hdeg : collectNoteOns mid.tracks = [] ∨ midiLength mid = 0
    · rw [if_pos hdeg]
      rfl
    · rw [if_neg hdeg]
      have hw : ¬ mid.ticks_per_beat / 8 = 0 := by
        have h1 : 1 ≤ mid.ticks_per_beat / 8 :=
          (Nat.one_le_div_iff (by norm_num)).mpr h8
        omega
      rw [if_neg hw]
      rfl
  · intro mid h0 h8 hne hdur
    simp only [analyse]
    rw [if_neg (by simp [hne, hdur])]
    rw [if_pos (Nat.div_eq_of_lt h8)]

/-- Witness for C9 (amended): a 480-tpb file analyses successfully; a
4-tpb file with one loud note 4 ticks in (duration 1/2 s) hits the
division by zero. -/
theorem c9_window_division_by_zero_witness :
    (analyse ⟨480, [[.endOfTrack 0]]⟩).isSome = true ∧
      analyse ⟨4, [[.noteOn 60 80 4, .endOfTrack 0]]⟩ = none := by
  constructor
  · exact c9_window_division_by_zero.1 ⟨480, [[.endOfTrack 0]]⟩ (by norm_num)
  · refine c9_window_division_by_zero.2 ⟨4, [[.noteOn 60 80 4, .endOfTrack 0]]⟩
      (by norm_num) (by norm_num) (by decide) ?_
    have : midiLength ⟨4, [[.noteOn 60 80 4, .endOfTrack 0]]⟩ = 1/2 := by
      norm_num [midiLength, mergedAbs, toAbsMsgs, sortStable, insertLe, lengthLoop,
        DEFAULT_TEMPO, Msg.time]
    rw [this]
    norm_num

end Earworm
